import Mathlib

/-!
# Verification of the keystone-voms credential-resolution core

Shallow embedding of `keystone_voms/core.py`: the FQAN parser
(`VomsAuthNMiddleware._split_fqan`), the VOMS error-code mapping
(`VomsError.__init__`), tenant resolution (`_get_project_from_voms`),
provisioning (`_get_user`, `_create_user`, `_add_user_to_tenant`,
`_search_role`, `_update_user_roles`) and the request orchestrator
(`_process_request`, `process_request`).

Python strings handled character by character (splitting and joining) are
modelled as `List Char`; strings used only as opaque keys stay `String`.
Python dicts used as lookup tables are association lists with the first
binding winning, matching dict-key uniqueness in the JSON policy file.
The external keystone identity/assignment backend is modelled as an
explicit record of users, projects, memberships, roles and role grants;
`uuid.uuid4().hex` is modelled as drawing a fresh identifier from a
monotone counter held in the backend state.
-/

namespace KeystoneVoms

/-! ## Python string primitives

`str.split(sep)` for a one-character separator, `sep.join`, and the
`list.pop()` / `l[-1]` idioms used by `_split_fqan`. -/

/-- A Python string, modelled as its list of characters. -/
abbrev PyStr := List Char

/-- Prepend a character to the first piece of a split result (helper for
`splitOnChar`); on an empty list of pieces it opens a fresh piece. -/
def consHead (c : Char) : List PyStr → List PyStr
  | [] => [[c]]
  | h :: t => (c :: h) :: t

/-- Python `s.split(sep)` for a single-character separator `sep`:
adjacent, leading and trailing separators produce empty pieces, and the
empty string splits into one empty piece. -/
def splitOnChar (sep : Char) : List Char → List PyStr
  | [] => [[]]
  | c :: rest =>
    if c = sep then [] :: splitOnChar sep rest
    else consHead c (splitOnChar sep rest)

/-- Python `sep.join(pieces)` for a single-character separator. -/
def intercalateChar (sep : Char) : List PyStr → List Char
  | [] => []
  | [x] => x
  | x :: y :: t => x ++ sep :: intercalateChar sep (y :: t)

/-- Python `l.pop()` on a list of strings: removes and returns the last
element; `none` models the `IndexError` raised on an empty list. -/
def pyPop (l : List PyStr) : Option (PyStr × List PyStr) :=
  match l.getLast? with
  | none => none
  | some x => some (x, l.dropLast)

/-- Python `seg.split("=")[-1]`: the substring after the final `=`, or the
whole string when no `=` occurs (split of a string is never empty, so the
`[-1]` never fails and the default of `getLastD` is unreachable). -/
def lastSegAfterEq (s : PyStr) : PyStr := (splitOnChar '=' s).getLastD []

/-- `VomsAuthNMiddleware._split_fqan` (core.py lines 191-201):
split the FQAN on `/`, pop the last segment and keep what follows its last
`=` as the capability, pop the next segment likewise for the role, and
rejoin the remaining segments with `/` as the vo/group path.  `none`
models the uncaught `IndexError` from popping an empty list, which happens
exactly when the input has fewer than two `/`-separated segments. -/
def split_fqan (fqan : PyStr) : Option (PyStr × PyStr × PyStr) := do
  let l := splitOnChar '/' fqan
  let (seg1, l1) ← pyPop l
  let capability := lastSegAfterEq seg1
  let (seg2, l2) ← pyPop l1
  let role := lastSegAfterEq seg2
  return (intercalateChar '/' l2, role, capability)

/-- The characters of the literal `Role=`. -/
def roleKey : PyStr := ['R', 'o', 'l', 'e', '=']

/-- The characters of the literal `Capability=`. -/
def capKey : PyStr := ['C', 'a', 'p', 'a', 'b', 'i', 'l', 'i', 't', 'y', '=']

/-- A well-formed FQAN in the sense of the specification: a slash-separated
path whose second-to-last segment is `Role=<r>` and whose last segment is
`Capability=<c>`, with arbitrary leading segments. -/
def mkFqan (segs : List PyStr) (r c : PyStr) : PyStr :=
  intercalateChar '/' (segs ++ [roleKey ++ r, capKey ++ c])

/-! ## VomsError (core.py lines 71-113)

`VomsError.__init__` looks the native validator's numeric code up in the
`errors` dict for the error kind (short name) and message, defaulting to
`oops` / `Unknown error %d`, and in `http_codes` for the HTTP status and
title, defaulting to `500, "Unexpected Error"`. -/

/-- Python `d.get(key, default)` on a dict modelled as an association
list (keys unique, first binding wins). -/
def dictGet {κ α : Type} [DecidableEq κ] : List (κ × α) → κ → α → α
  | [], _, dflt => dflt
  | (k, v) :: rest, key, dflt => if key = k then v else dictGet rest key dflt

/-- The `VomsError.errors` dict: native code → (kind short name, message). -/
def voms_errors : List (Int × String × Option String) :=
  [ (0, "none", none),
    (1, "nosocket", some "Socket problem"),
    (2, "noident", some "Cannot identify itself (certificate problem)"),
    (3, "comm", some "Server problem"),
    (4, "param", some "Wrong parameters"),
    (5, "noext", some "VOMS extension missing"),
    (6, "noinit", some "Initialization error"),
    (7, "time", some "Error in time checking"),
    (8, "idcheck", some "User data in extension different from the real"),
    (9, "extrainfo", some "VO name and URI missing"),
    (10, "format", some "Wrong data format"),
    (11, "nodata", some "Empty extension"),
    (12, "parse", some "Parse error"),
    (13, "dir", some "Directory error"),
    (14, "sign", some "Signature error"),
    (15, "server", some "Unidentifiable VOMS server"),
    (16, "mem", some "Memory problems"),
    (17, "verify", some "Generic verification error"),
    (18, "type", some "Returned data of unknown type"),
    (19, "order", some "Ordering different than required"),
    (20, "servercode", some "Error from the server"),
    (21, "notavail", some "Method not available") ]

/-- The `VomsError.http_codes` dict: native code → (HTTP status, title). -/
def voms_http_codes : List (Int × Nat × String) :=
  [ (5, 400, "Bad Request"),
    (11, 400, "Bad Request"),
    (14, 401, "Not Authorized") ]

/-- `VomsError.__init__`: from the native code, the error kind (the short
name from `errors`, `"oops"` meaning unknown), the HTTP status stored in
`self.code` and the title stored in `self.title`. -/
def voms_error_ctor (code : Int) : String × Nat × String :=
  let e := dictGet voms_errors code ("oops", some ("Unknown error " ++ toString code))
  let h := dictGet voms_http_codes code (500, "Unexpected Error")
  (e.1, h.1, h.2)

/-! ## Parser lemmas -/

theorem consHead_ne_nil (c : Char) (l : List PyStr) : consHead c l ≠ [] := by
  cases l <;> simp [consHead]

theorem splitOnChar_ne_nil (sep : Char) (s : List Char) : splitOnChar sep s ≠ [] := by
  induction s with
  | nil => simp [splitOnChar]
  | cons c rest ih =>
    simp only [splitOnChar]
    split
    · simp
    · exact consHead_ne_nil c _

theorem consHead_append (c : Char) (l₁ l₂ : List PyStr) (h : l₁ ≠ []) :
    consHead c (l₁ ++ l₂) = consHead c l₁ ++ l₂ := by
  cases l₁ with
  | nil => exact absurd rfl h
  | cons x t => simp [consHead]

/-- Splitting distributes over a separator placed between two strings. -/
theorem splitOnChar_append (sep : Char) (a b : List Char) :
    splitOnChar sep (a ++ sep :: b) = splitOnChar sep a ++ splitOnChar sep b := by
  induction a with
  | nil => simp [splitOnChar]
  | cons c a ih =>
    simp only [List.cons_append, splitOnChar]
    split
    · simp [ih]
    · rw [List.append_eq, ih, consHead_append _ _ _ (splitOnChar_ne_nil sep a)]

theorem splitOnChar_of_not_mem (sep : Char) (s : List Char) (h : sep ∉ s) :
    splitOnChar sep s = [s] := by
  induction s with
  | nil => simp [splitOnChar]
  | cons c rest ih =>
    simp only [List.mem_cons, not_or] at h
    simp only [splitOnChar, if_neg (Ne.symm h.1)]
    rw [ih h.2]
    simp [consHead]

theorem intercalateChar_consHead (sep : Char) (c : Char) (l : List PyStr) (h : l ≠ []) :
    intercalateChar sep (consHead c l) = c :: intercalateChar sep l := by
  match l with
  | [x] => simp [consHead, intercalateChar]
  | x :: y :: t => simp [consHead, intercalateChar]
  | [] => exact absurd rfl h

theorem intercalateChar_nil_cons (sep : Char) (l : List PyStr) (h : l ≠ []) :
    intercalateChar sep ([] :: l) = sep :: intercalateChar sep l := by
  match l with
  | [x] => simp [intercalateChar]
  | x :: y :: t => simp [intercalateChar]
  | [] => exact absurd rfl h

/-- Joining the pieces of a split with the separator restores the string. -/
theorem intercalateChar_splitOnChar (sep : Char) (s : List Char) :
    intercalateChar sep (splitOnChar sep s) = s := by
  induction s with
  | nil => simp [splitOnChar, intercalateChar]
  | cons c rest ih =>
    simp only [splitOnChar]
    split
    · rename_i hc
      rw [intercalateChar_nil_cons sep _ (splitOnChar_ne_nil sep rest), ih, hc]
    · rw [intercalateChar_consHead sep _ _ (splitOnChar_ne_nil sep rest), ih]

theorem intercalateChar_append (sep : Char) (l₁ l₂ : List PyStr)
    (h₁ : l₁ ≠ []) (h₂ : l₂ ≠ []) :
    intercalateChar sep (l₁ ++ l₂) =
      intercalateChar sep l₁ ++ sep :: intercalateChar sep l₂ := by
  induction l₁ with
  | nil => exact absurd rfl h₁
  | cons x t ih =>
    match t, l₂ with
    | [], y :: t₂ => simp [intercalateChar]
    | x' :: t', l₂ =>
      have h3 := ih (by simp)
      simp only [List.cons_append, List.append_eq, intercalateChar] at h3 ⊢
      rw [h3]
      simp

theorem pyPop_concat (l : List PyStr) (x : PyStr) : pyPop (l ++ [x]) = some (x, l) := by
  simp [pyPop, List.getLast?_concat, List.dropLast_concat]

/-- Evaluation of `_split_fqan` on any string whose split has at least two
segments: the last two segments are consumed for capability and role and
the rest is rejoined. -/
theorem split_fqan_eval (fqan : PyStr) (l : List PyStr) (A B : PyStr)
    (h : splitOnChar '/' fqan = l ++ [A, B]) :
    split_fqan fqan = some (intercalateChar '/' l, lastSegAfterEq A, lastSegAfterEq B) := by
  have hp1 : pyPop (l ++ [A, B]) = some (B, l ++ [A]) := by
    rw [show l ++ [A, B] = (l ++ [A]) ++ [B] by simp, pyPop_concat]
  have hp2 : pyPop (l ++ [A]) = some (A, l) := pyPop_concat l A
  simp [split_fqan, h, hp1, hp2]

theorem lastSegAfterEq_key (key pre : PyStr) (hkey : key = pre ++ ['='])
    (hpre : '=' ∉ pre) (v : PyStr) (hv : '=' ∉ v) :
    lastSegAfterEq (key ++ v) = v := by
  subst hkey
  have h1 : (pre ++ ['=']) ++ v = pre ++ '=' :: v := by simp
  rw [lastSegAfterEq, h1, splitOnChar_append, splitOnChar_of_not_mem _ _ hpre,
    splitOnChar_of_not_mem _ _ hv]
  simp

/-- C3: for every well-formed FQAN of the form
`<leading segments>/Role=r/Capability=c` — a slash-separated path whose
last segment is `Capability=<c>` and second-to-last is `Role=<r>`, with
`r` and `c` free of `/` and `=` — `_split_fqan` returns the triple
(leading segments rejoined with `/`, `r`, `c`). -/
theorem split_fqan_wellFormed (segs : List PyStr) (r c : PyStr)
    (hr1 : '/' ∉ r) (hr2 : '=' ∉ r) (hc1 : '/' ∉ c) (hc2 : '=' ∉ c) :
    split_fqan (mkFqan segs r c) = some (intercalateChar '/' segs, r, c) := by
  have hra : '/' ∉ roleKey ++ r := by
    intro hm
    rcases List.mem_append.mp hm with hm | hm
    · exact absurd hm (by decide)
    · exact hr1 hm
  have hca : '/' ∉ capKey ++ c := by
    intro hm
    rcases List.mem_append.mp hm with hm | hm
    · exact absurd hm (by decide)
    · exact hc1 hm
  have hRA : lastSegAfterEq (roleKey ++ r) = r :=
    lastSegAfterEq_key roleKey ['R', 'o', 'l', 'e'] (by decide) (by decide) r hr2
  have hCA : lastSegAfterEq (capKey ++ c) = c :=
    lastSegAfterEq_key capKey ['C', 'a', 'p', 'a', 'b', 'i', 'l', 'i', 't', 'y']
      (by decide) (by decide) c hc2
  cases segs with
  | nil =>
    have h1 : mkFqan [] r c = (roleKey ++ r) ++ '/' :: (capKey ++ c) := by
      simp [mkFqan, intercalateChar]
    have h2 : splitOnChar '/' (mkFqan [] r c) = [] ++ [roleKey ++ r, capKey ++ c] := by
      rw [h1, splitOnChar_append, splitOnChar_of_not_mem _ _ hra,
        splitOnChar_of_not_mem _ _ hca]
      rfl
    rw [split_fqan_eval _ _ _ _ h2, hRA, hCA]
  | cons s ss =>
    have h1 : mkFqan (s :: ss) r c =
        intercalateChar '/' (s :: ss) ++
          '/' :: ((roleKey ++ r) ++ '/' :: (capKey ++ c)) := by
      rw [mkFqan, intercalateChar_append '/' (s :: ss) _ (by simp) (by simp)]
      simp [intercalateChar]
    have h2 : splitOnChar '/' (mkFqan (s :: ss) r c) =
        splitOnChar '/' (intercalateChar '/' (s :: ss)) ++
          [roleKey ++ r, capKey ++ c] := by
      rw [h1, splitOnChar_append, splitOnChar_append,
        splitOnChar_of_not_mem _ _ hra, splitOnChar_of_not_mem _ _ hca]
      rfl
    rw [split_fqan_eval _ _ _ _ h2, hRA, hCA, intercalateChar_splitOnChar]

/-- Witness for C3 at the concrete FQAN `/dteam/Role=r/Capability=c`:
the parser yields vo/group path `/dteam`, role `r`, capability `c`. -/
theorem split_fqan_wellFormed_witness :
    split_fqan (mkFqan [[], ['d', 't', 'e', 'a', 'm']] ['r'] ['c']) =
      some (intercalateChar '/' [[], ['d', 't', 'e', 'a', 'm']], ['r'], ['c']) :=
  split_fqan_wellFormed [[], ['d', 't', 'e', 'a', 'm']] ['r'] ['c']
    (by decide) (by decide) (by decide) (by decide)

/-- C4 counterexample: on the malformed FQAN `abc`, which has a single
`/`-separated segment, `_split_fqan` raises `IndexError` (the second
`pop()` acts on an empty list) instead of returning a triple, so the
parser is not total on arbitrary strings. -/
theorem split_fqan_not_total : split_fqan (['a', 'b', 'c'] : PyStr) = none := by
  rfl

theorem splitOnChar_length_ge_two (sep : Char) (s : List Char) (h : sep ∈ s) :
    2 ≤ (splitOnChar sep s).length := by
  induction s with
  | nil => simp at h
  | cons ch rest ih =>
    simp only [splitOnChar]
    by_cases hc : ch = sep
    · rw [if_pos hc]
      have h1 : splitOnChar sep rest ≠ [] := splitOnChar_ne_nil sep rest
      have h2 : 1 ≤ (splitOnChar sep rest).length := List.length_pos.mpr h1
      simp only [List.length_cons]
      omega
    · rw [if_neg hc]
      rcases List.mem_cons.mp h with h | h
      · exact absurd h.symm hc
      · have h2 := ih h
        have h3 : (consHead ch (splitOnChar sep rest)).length =
            (splitOnChar sep rest).length := by
          rcases hne : splitOnChar sep rest with _ | ⟨x, t⟩
          · exact absurd hne (splitOnChar_ne_nil sep rest)
          · simp [consHead]
        omega

theorem exists_concat_two (l : List PyStr) (h : 2 ≤ l.length) :
    ∃ l₀ x y, l = l₀ ++ [x, y] := by
  rcases hrev : l.reverse with _ | ⟨y, t⟩
  · rw [List.reverse_eq_nil_iff] at hrev
    subst hrev
    simp at h
  · rcases t with _ | ⟨x, t₂⟩
    · have h1 : l = [y] := by simpa using congrArg List.reverse hrev
      subst h1
      simp at h
    · refine ⟨t₂.reverse, x, y, ?_⟩
      have h1 := congrArg List.reverse hrev
      simpa using h1

/-- C4 amended: `_split_fqan` is total exactly on strings with at least
two `/`-separated segments; whenever the input contains at least one `/`,
it returns some (possibly wrong) triple instead of raising. -/
theorem split_fqan_total_on_slash (s : PyStr) (h : '/' ∈ s) :
    (split_fqan s).isSome = true := by
  obtain ⟨l₀, x, y, hdec⟩ :=
    exists_concat_two _ (splitOnChar_length_ge_two '/' s h)
  rw [split_fqan_eval s l₀ x y hdec]
  rfl

/-- Witness for the amended C4 at the concrete input `/`. -/
theorem split_fqan_total_on_slash_witness :
    (split_fqan (['/'] : PyStr)).isSome = true :=
  split_fqan_total_on_slash ['/'] (by decide)

theorem dictGet_default {κ α : Type} [DecidableEq κ] (d : List (κ × α)) (k : κ)
    (dflt : α) (h : ∀ kv ∈ d, kv.1 ≠ k) : dictGet d k dflt = dflt := by
  induction d with
  | nil => rfl
  | cons kv rest ih =>
    simp only [dictGet]
    rw [if_neg fun he => (h kv (by simp)) he.symm]
    exact ih fun x hx => h x (by simp [hx])

/-- C5: `VomsError` maps every native code 0–21 to exactly the enumerated
kind, with HTTP 400 (bad request) for codes 5 and 11, HTTP 401
(unauthorized) for code 14 and HTTP 500 (internal) for every other code
in range; every code outside 0–21 maps to the unknown kind `oops` with
HTTP 500. -/
theorem voms_error_code_mapping :
    (voms_error_ctor 0 = ("none", 500, "Unexpected Error") ∧
     voms_error_ctor 1 = ("nosocket", 500, "Unexpected Error") ∧
     voms_error_ctor 2 = ("noident", 500, "Unexpected Error") ∧
     voms_error_ctor 3 = ("comm", 500, "Unexpected Error") ∧
     voms_error_ctor 4 = ("param", 500, "Unexpected Error") ∧
     voms_error_ctor 5 = ("noext", 400, "Bad Request") ∧
     voms_error_ctor 6 = ("noinit", 500, "Unexpected Error") ∧
     voms_error_ctor 7 = ("time", 500, "Unexpected Error") ∧
     voms_error_ctor 8 = ("idcheck", 500, "Unexpected Error") ∧
     voms_error_ctor 9 = ("extrainfo", 500, "Unexpected Error") ∧
     voms_error_ctor 10 = ("format", 500, "Unexpected Error") ∧
     voms_error_ctor 11 = ("nodata", 400, "Bad Request") ∧
     voms_error_ctor 12 = ("parse", 500, "Unexpected Error") ∧
     voms_error_ctor 13 = ("dir", 500, "Unexpected Error") ∧
     voms_error_ctor 14 = ("sign", 401, "Not Authorized") ∧
     voms_error_ctor 15 = ("server", 500, "Unexpected Error") ∧
     voms_error_ctor 16 = ("mem", 500, "Unexpected Error") ∧
     voms_error_ctor 17 = ("verify", 500, "Unexpected Error") ∧
     voms_error_ctor 18 = ("type", 500, "Unexpected Error") ∧
     voms_error_ctor 19 = ("order", 500, "Unexpected Error") ∧
     voms_error_ctor 20 = ("servercode", 500, "Unexpected Error") ∧
     voms_error_ctor 21 = ("notavail", 500, "Unexpected Error")) ∧
    ∀ code : Int, code < 0 ∨ 21 < code →
      voms_error_ctor code = ("oops", 500, "Unexpected Error") := by
  constructor
  · exact ⟨rfl, rfl, rfl, rfl, rfl, rfl, rfl, rfl, rfl, rfl, rfl, rfl, rfl,
      rfl, rfl, rfl, rfl, rfl, rfl, rfl, rfl, rfl⟩
  · intro code h
    have h1 : dictGet voms_errors code
        ("oops", some ("Unknown error " ++ toString code)) =
        ("oops", some ("Unknown error " ++ toString code)) := by
      apply dictGet_default
      intro kv hkv
      fin_cases hkv <;> simp <;> omega
    have h2 : dictGet voms_http_codes code (500, "Unexpected Error") =
        (500, "Unexpected Error") := by
      apply dictGet_default
      intro kv hkv
      fin_cases hkv <;> simp <;> omega
    simp [voms_error_ctor, h1, h2]

/-- Witness for C5 at the out-of-range code 22. -/
theorem voms_error_code_mapping_witness :
    voms_error_ctor 22 = ("oops", 500, "Unexpected Error") :=
  voms_error_code_mapping.2 22 (by decide)

/-! ## Identity backend model

The keystone `identity_api` / `assignment_api` collaborator, as consulted
by core.py: user records, project (tenant) records, tenant memberships,
role records and role grants, in a single fixed domain (`self.domain` is
constant for the middleware's lifetime, so the domain argument of the
keystone calls is dropped).  Memberships and role grants are set-like in
the backend (keystone refuses duplicates), so the insertion operations
add a pair only when it is absent.  `uuid.uuid4().hex` is modelled as
drawing the next value of the `nextId` counter. -/

/-- A keystone exception raised by the embedded code paths. -/
inductive PyExc where
  /-- Python `UnboundLocalError` (`voinfo` read before assignment when the
  FQAN loop body never runs). -/
  | nameError
  /-- Python `TypeError` from subscripting `None`. -/
  | typeErr
  /-- Python `KeyError` from a missing dict key. -/
  | keyErr
  /-- `keystone.exception.UserNotFound`, re-raised by `_get_user`. -/
  | userNotFound
  /-- `exception.Unauthorized("Your VO is not authorized")` from
  `_get_project_from_voms`. -/
  | voNotAuthorized
  /-- Bare `exception.Unauthorized` from the requested-tenant mismatch. -/
  | unauthorized
  /-- `keystone.exception.RoleNotFound` from `assignment_api.get_role`. -/
  | roleNotFound
  /-- `exception.ValidationError` (bad `voms` value in the auth JSON, or
  bad SSL data). -/
  | validationError
  /-- A `VomsError` carrying the native validator code. -/
  | vomsError (code : Int)
deriving DecidableEq

/-- A user record in the identity backend. -/
structure User where
  id : Nat
  name : String
  enabled : Bool
deriving DecidableEq

/-- A project (tenant) record in the identity backend. -/
structure Project where
  id : Nat
  name : String
deriving DecidableEq

/-- A role record in the assignment backend. -/
structure Role where
  id : Nat
  name : String
deriving DecidableEq

/-- A role grant: user `user` holds role `role` on tenant `tenant`. -/
structure Grant where
  user : Nat
  tenant : Nat
  role : Nat
deriving DecidableEq

/-- The identity/assignment backend state.  `memberships` holds
(tenant id, user id) pairs; `nextId` is the fresh-identifier counter
standing in for `uuid.uuid4().hex`. -/
structure Backend where
  users : List User
  projects : List Project
  memberships : List (Nat × Nat)
  roles : List Role
  grants : List Grant
  nextId : Nat
deriving DecidableEq

/-- `identity_api.get_user_by_name(name, domain)`: `none` models
`UserNotFound`. -/
def get_user_by_name (s : Backend) (n : String) : Option User :=
  s.users.find? (fun u => u.name = n)

/-- `identity_api.get_project_by_name(tenant_name, domain)`: `none`
models `ProjectNotFound`. -/
def get_project_by_name (projects : List Project) (n : String) : Option Project :=
  projects.find? (fun p => p.name = n)

/-- `identity_api.list_projects_for_user(user_id)`: the projects in
which the user has a membership. -/
def list_projects_for_user (s : Backend) (uid : Nat) : List Project :=
  s.projects.filter (fun p => decide ((p.id, uid) ∈ s.memberships))

/-- `identity_api.add_user_to_project(tenant_id, user_id)` (membership is
set-like in the backend). -/
def add_user_to_project (s : Backend) (tid uid : Nat) : Backend :=
  if (tid, uid) ∈ s.memberships then s
  else { s with memberships := s.memberships ++ [(tid, uid)] }

/-- `identity_api.create_user(user_id, user)` as invoked by
`_create_user`: a fresh enabled user named after the DN. -/
def create_user (s : Backend) (user_dn : String) : User × Backend :=
  let user : User := { id := s.nextId, name := user_dn, enabled := true }
  (user, { s with users := s.users ++ [user], nextId := s.nextId + 1 })

/-- `assignment_api.get_roles_for_user_and_project(user_id, tenant_id)`:
the ids of the roles granted to the user on the tenant. -/
def get_roles_for_user_and_project (s : Backend) (uid tid : Nat) : List Nat :=
  (s.grants.filter (fun g => g.user = uid && g.tenant = tid)).map (fun g => g.role)

/-- `assignment_api.get_role(role_id)`: `none` models `RoleNotFound`. -/
def get_role (s : Backend) (rid : Nat) : Option Role :=
  s.roles.find? (fun r => r.id = rid)

/-- `VomsAuthNMiddleware._search_role`: scan `assignment_api.list_roles()`
for the first role with the given name. -/
def search_role (s : Backend) (rname : String) : Option Role :=
  s.roles.find? (fun r => r.name = rname)

/-- `assignment_api.create_role(r_id, role)` with a fresh id from the
counter (`uuid.uuid4().hex` in the source). -/
def create_role (s : Backend) (rname : String) : Role × Backend :=
  let role : Role := { id := s.nextId, name := rname }
  (role, { s with roles := s.roles ++ [role], nextId := s.nextId + 1 })

/-- `assignment_api.add_role_to_user_and_project(user_id, tenant_id,
role_id)` (grants are set-like in the backend). -/
def add_grant (s : Backend) (uid tid rid : Nat) : Backend :=
  if (⟨uid, tid, rid⟩ : Grant) ∈ s.grants then s
  else { s with grants := s.grants ++ [⟨uid, tid, rid⟩] }

/-! ## Tenant resolution (`_get_project_from_voms`, core.py lines 215-236) -/

/-- A JSON object value of the policy table, e.g.
`\x7b"tenant": "dteam-tenant"\x7d`, as an association list. -/
abbrev VoInfoDict := List (String × String)

/-- The VOMS policy table `self.voms_json`: FQAN or VO-name keys mapping
to JSON objects. -/
abbrev PolicyTable := List (String × VoInfoDict)

/-- The guard `voinfo is not \x7b\x7d` of the FQAN loop: Python identity
comparison of `voinfo` against a freshly constructed empty dict literal.
Two distinct dict objects are never identical, and both the stored dicts
and the `.get` default are distinct objects from the literal, so the
comparison is `True` for every value of `voinfo`. -/
def is_not_empty_dict_literal (_ : VoInfoDict) : Bool := true

/-- Python truthiness of a dict: `False` exactly when empty. -/
def py_truthy_dict (d : VoInfoDict) : Bool := !d.isEmpty

/-- The `for fqan in user_fqans` loop of `_get_project_from_voms`.  `acc`
is the current binding of the Python variable `voinfo` (`none` = not yet
assigned); each iteration binds `voinfo` to the table lookup and breaks
when the (always true) guard holds.  A `none` result means the loop body
never ran and `voinfo` is still unbound. -/
def fqan_loop (table : PolicyTable) : List String → Option VoInfoDict → Option VoInfoDict
  | [], acc => acc
  | fqan :: rest, _ =>
    let voinfo := dictGet table fqan []
    if is_not_empty_dict_literal voinfo then some voinfo
    else fqan_loop table rest (some voinfo)

/-- `VomsAuthNMiddleware._get_project_from_voms` (core.py lines 215-236):
run the FQAN loop; reading `voinfo` when the loop never ran raises
`UnboundLocalError` (`.nameError`); if the bound `voinfo` is falsy, fall
back to the VO-name lookup; then resolve `voinfo.get("tenant", "")` as a
project name, translating `ProjectNotFound` into
`Unauthorized("Your VO is not authorized")`. -/
def get_project_from_voms (table : PolicyTable) (projects : List Project)
    (voname : String) (fqans : List String) : Except PyExc Project :=
  match fqan_loop table fqans none with
  | none => .error .nameError
  | some v0 =>
    let voinfo := if py_truthy_dict v0 then v0 else dictGet table voname []
    let tenant_name := dictGet voinfo "tenant" ""
    match get_project_by_name projects tenant_name with
    | some p => .ok p
    | none => .error .voNotAuthorized

/-- C1: on the policy table mapping only the second FQAN `"b"` to tenant
`"T"` (which exists in the backend), with FQAN sequence `["a", "b"]` and
VO name `"vo"` absent from the table, the code yields
`Unauthorized` instead of tenant `"T"`: the loop guard
`voinfo is not \x7b\x7d` is always true, so only the first FQAN is ever
looked up and the later matching FQAN is never consulted, contradicting
first-match-wins over the whole sequence. -/
theorem get_project_from_voms_ignores_later_fqans :
    get_project_from_voms [("b", [("tenant", "T")])] [⟨1, "T"⟩] "vo" ["a", "b"] =
        .error .voNotAuthorized ∧
    dictGet [("b", [("tenant", "T")])] "b" [] = [("tenant", "T")] ∧
    get_project_by_name [⟨1, "T"⟩] "T" = some ⟨1, "T"⟩ := by
  refine ⟨rfl, ?_, ?_⟩ <;> rfl

/-- C6: on an empty FQAN sequence the code never reaches the VO-name
fallback: the loop body never runs, `voinfo` is unbound, and reading it
raises `UnboundLocalError` (an internal error), instead of resolving via
`voname` or yielding the VO-not-configured unauthorized result. -/
theorem get_project_from_voms_empty_fqans_nameError :
    get_project_from_voms [("dteam", [("tenant", "dteam-tenant")])]
        [⟨1, "dteam-tenant"⟩] "dteam" [] = .error .nameError := by
  rfl

/-! ## Provisioning (`_get_user` and `_update_user_roles`, core.py lines 263-313) -/

/-- The `CONF.voms` options consulted by `_get_user` and
`_update_user_roles`. -/
structure Config where
  autocreate_users : Bool
  add_roles : Bool
  user_roles : List String
deriving DecidableEq

/-- The fields of the VOMS attribute dict built by `_get_voms_info` that
the resolution and provisioning code reads (`user`, `voname`, `fqans`;
the remaining fields are carried through untouched and are omitted). -/
structure VomsInfo where
  user : String
  voname : String
  fqans : List String
deriving DecidableEq

/-- The guard `req_tenant and req_tenant != tenant["name"]` of
`_get_user`: `None` and the empty string are falsy, so only a non-empty
requested name differing from the resolved name trips it. -/
def tenant_mismatch (req_tenant : Option String) (tname : String) : Bool :=
  match req_tenant with
  | none => false
  | some t => if t = "" then false else if t = tname then false else true

/-- The list comprehension
`[get_role(role_id).get('name') for role_id in user_roles]` of
`_update_user_roles`: `none` models the `RoleNotFound` raised when any
granted role id has no record. -/
def lookup_role_names (s : Backend) : List Nat → Option (List String)
  | [] => some []
  | rid :: rest =>
    match get_role s rid, lookup_role_names s rest with
    | some r, some ns => some (r.name :: ns)
    | _, _ => none

/-- The `for r_name in CONF.voms.user_roles` loop of
`_update_user_roles`: `role_names` is computed once before the loop and
not refreshed; a missing role is autocreated with a fresh id, then the
grant is added. -/
def add_roles_loop (uid tid : Nat) (role_names : List String) :
    List String → Backend → Backend
  | [], s => s
  | rname :: rest, s =>
    if rname ∈ role_names then add_roles_loop uid tid role_names rest s
    else
      match search_role s rname with
      | some role => add_roles_loop uid tid role_names rest (add_grant s uid tid role.id)
      | none =>
        let rs := create_role s rname
        add_roles_loop uid tid role_names rest (add_grant rs.2 uid tid rs.1.id)

/-- `VomsAuthNMiddleware._update_user_roles` (core.py lines 263-285). -/
def update_user_roles (user_roles : List String) (s : Backend) (uid tid : Nat) :
    Except PyExc Backend :=
  match lookup_role_names s (get_roles_for_user_and_project s uid tid) with
  | none => .error .roleNotFound
  | some ns => .ok (add_roles_loop uid tid ns user_roles s)

/-- The tail of `_get_user` after the user record is resolved: tenant
resolution, the requested-tenant mismatch check, and — when
`autocreate_users` is on — membership and role provisioning.  Returns the
`(user_dn, tenant_name)` pair or the raised exception, with the backend
state it leaves behind. -/
def get_user_rest (cfg : Config) (table : PolicyTable) (info : VomsInfo)
    (req_tenant : Option String) (u : User) (s : Backend) :
    Except PyExc (String × String) × Backend :=
  match get_project_from_voms table s.projects info.voname info.fqans with
  | .error e => (.error e, s)
  | .ok tenant =>
    if tenant_mismatch req_tenant tenant.name then (.error .unauthorized, s)
    else if cfg.autocreate_users then
      let s1 := if tenant ∈ list_projects_for_user s u.id then s
                else add_user_to_project s tenant.id u.id
      if cfg.add_roles then
        match update_user_roles cfg.user_roles s1 u.id tenant.id with
        | .error e => (.error e, s1)
        | .ok s2 => (.ok (info.user, tenant.name), s2)
      else (.ok (info.user, tenant.name), s1)
    else (.ok (info.user, tenant.name), s)

/-- `VomsAuthNMiddleware._get_user` (core.py lines 287-313): look the DN
up in the backend, autocreating the user when enabled (and re-raising
`UserNotFound` when not), then run the post-user stage
(`get_user_rest`). -/
def get_user (cfg : Config) (table : PolicyTable) (info : VomsInfo)
    (req_tenant : Option String) (s : Backend) :
    Except PyExc (String × String) × Backend :=
  match get_user_by_name s info.user with
  | some u => get_user_rest cfg table info req_tenant u s
  | none =>
    if cfg.autocreate_users then
      let us := create_user s info.user
      get_user_rest cfg table info req_tenant us.1 us.2
    else (.error .userNotFound, s)

/-- C2 counterexample: with `autocreate_users` on, an unknown principal
and a tenant resolution that fails (empty policy table), `_get_user`
still creates the user record before resolution runs: the request fails
with the resolution error, yet the backend has gained a user. -/
theorem get_user_creates_user_despite_resolution_failure :
    get_project_from_voms ([] : PolicyTable) ([] : List Project) "vo" ["f"] =
        .error .voNotAuthorized ∧
    (get_user ⟨true, false, ["_member_"]⟩ [] ⟨"dn", "vo", ["f"]⟩ none
        ⟨[], [], [], [], [], 0⟩).1 = .error .voNotAuthorized ∧
    (get_user ⟨true, false, ["_member_"]⟩ [] ⟨"dn", "vo", ["f"]⟩ none
        ⟨[], [], [], [], [], 0⟩).2.users = [⟨0, "dn", true⟩] := by
  exact ⟨rfl, rfl, rfl⟩

/-- C2 amended: when tenant resolution fails, the request aborts with
that error (or with `UserNotFound` when autocreation is off and the
principal is unknown) and no membership, role or role grant is added;
with `autocreate_users` disabled the backend is entirely unchanged, but
with it enabled a user record may already have been created, because
user creation precedes resolution in `_get_user`. -/
theorem get_user_resolution_failure_no_side_effects
    (cfg : Config) (table : PolicyTable) (info : VomsInfo)
    (req_tenant : Option String) (s : Backend) (e : PyExc)
    (hres : get_project_from_voms table s.projects info.voname info.fqans = .error e) :
    (get_user cfg table info req_tenant s).2.memberships = s.memberships ∧
    (get_user cfg table info req_tenant s).2.roles = s.roles ∧
    (get_user cfg table info req_tenant s).2.grants = s.grants ∧
    ((get_user cfg table info req_tenant s).1 = .error e ∨
      (get_user cfg table info req_tenant s).1 = .error .userNotFound) ∧
    (cfg.autocreate_users = false → (get_user cfg table info req_tenant s).2 = s) := by
  rcases hfind : get_user_by_name s info.user with _ | u
  · cases hauto : cfg.autocreate_users with
    | false => simp [get_user, hfind, hauto]
    | true => simp [get_user, hfind, hauto, get_user_rest, create_user, hres]
  · simp [get_user, hfind, get_user_rest, hres]

/-- Witness for the amended C2: with autocreation off and an empty
backend, a failing resolution leaves the backend untouched. -/
theorem get_user_resolution_failure_no_side_effects_witness :
    (get_user ⟨false, false, ["_member_"]⟩ [] ⟨"dn", "vo", ["f"]⟩ none
        ⟨[], [], [], [], [], 0⟩).2 = ⟨[], [], [], [], [], 0⟩ :=
  (get_user_resolution_failure_no_side_effects ⟨false, false, ["_member_"]⟩ []
      ⟨"dn", "vo", ["f"]⟩ none ⟨[], [], [], [], [], 0⟩ .voNotAuthorized rfl).2.2.2.2 rfl

/-- C7 counterexample: the requested tenant `"other"` differs from the
resolved tenant `"T"`, the request fails with `Unauthorized` — yet with
`autocreate_users` on and the principal unknown, a user record has been
created, so the backend did gain a user for this failed request. -/
theorem get_user_mismatch_still_creates_user :
    get_project_from_voms [("f", [("tenant", "T")])] [⟨1, "T"⟩] "vo" ["f"] =
        .ok ⟨1, "T"⟩ ∧
    tenant_mismatch (some "other") "T" = true ∧
    (get_user ⟨true, true, ["_member_"]⟩ [("f", [("tenant", "T")])]
        ⟨"dn", "vo", ["f"]⟩ (some "other") ⟨[], [⟨1, "T"⟩], [], [], [], 0⟩).1 =
        .error .unauthorized ∧
    (get_user ⟨true, true, ["_member_"]⟩ [("f", [("tenant", "T")])]
        ⟨"dn", "vo", ["f"]⟩ (some "other") ⟨[], [⟨1, "T"⟩], [], [], [], 0⟩).2.users =
        [⟨0, "dn", true⟩] := by
  exact ⟨rfl, rfl, rfl, rfl⟩

/-- C7 amended: when the explicitly requested tenant name is non-empty
and differs from the resolved tenant name, `_get_user` fails with the
bare `Unauthorized` (or with `UserNotFound` when autocreation is off and
the principal is unknown); no membership, role or role grant is added,
and with `autocreate_users` disabled the backend is entirely unchanged —
but with it enabled a user record may already have been created before
the mismatch check. -/
theorem get_user_tenant_mismatch_no_provisioning
    (cfg : Config) (table : PolicyTable) (info : VomsInfo)
    (req_tenant : Option String) (s : Backend) (tenant : Project)
    (hres : get_project_from_voms table s.projects info.voname info.fqans = .ok tenant)
    (hmis : tenant_mismatch req_tenant tenant.name = true) :
    ((get_user cfg table info req_tenant s).1 = .error .unauthorized ∨
      (get_user cfg table info req_tenant s).1 = .error .userNotFound) ∧
    (get_user cfg table info req_tenant s).2.memberships = s.memberships ∧
    (get_user cfg table info req_tenant s).2.roles = s.roles ∧
    (get_user cfg table info req_tenant s).2.grants = s.grants ∧
    (cfg.autocreate_users = false → (get_user cfg table info req_tenant s).2 = s) := by
  rcases hfind : get_user_by_name s info.user with _ | u
  · cases hauto : cfg.autocreate_users with
    | false => simp [get_user, hfind, hauto]
    | true => simp [get_user, hfind, hauto, get_user_rest, create_user, hres, hmis]
  · simp [get_user, hfind, get_user_rest, hres, hmis]

/-- Witness for the amended C7: with autocreation off, a mismatching
request leaves the backend untouched. -/
theorem get_user_tenant_mismatch_no_provisioning_witness :
    (get_user ⟨false, false, ["_member_"]⟩ [("f", [("tenant", "T")])]
        ⟨"dn", "vo", ["f"]⟩ (some "other") ⟨[], [⟨1, "T"⟩], [], [], [], 0⟩).2 =
      ⟨[], [⟨1, "T"⟩], [], [], [], 0⟩ :=
  (get_user_tenant_mismatch_no_provisioning ⟨false, false, ["_member_"]⟩
      [("f", [("tenant", "T")])] ⟨"dn", "vo", ["f"]⟩ (some "other")
      ⟨[], [⟨1, "T"⟩], [], [], [], 0⟩ ⟨1, "T"⟩ rfl rfl).2.2.2.2 rfl

/-! ## Idempotence of provisioning (C8): supporting lemmas -/

theorem find_append_some {α : Type} (p : α → Bool) {l₁ : List α} (l₂ : List α)
    {x : α} (h : l₁.find? p = some x) : (l₁ ++ l₂).find? p = some x := by
  induction l₁ with
  | nil => simp at h
  | cons a t ih =>
    by_cases hpa : p a = true
    · rw [List.find?_cons_of_pos _ hpa] at h
      rw [List.cons_append, List.find?_cons_of_pos _ hpa]
      exact h
    · rw [List.find?_cons_of_neg _ hpa] at h
      rw [List.cons_append, List.find?_cons_of_neg _ hpa]
      exact ih h

theorem find_append_none {α : Type} (p : α → Bool) {l₁ : List α} (l₂ : List α)
    (h : l₁.find? p = none) : (l₁ ++ l₂).find? p = l₂.find? p := by
  induction l₁ with
  | nil => simp
  | cons a t ih =>
    by_cases hpa : p a = true
    · rw [List.find?_cons_of_pos _ hpa] at h
      exact absurd h (by simp)
    · rw [List.find?_cons_of_neg _ hpa] at h
      rw [List.cons_append, List.find?_cons_of_neg _ hpa]
      exact ih h

theorem find_isSome_of_mem {α : Type} (p : α → Bool) {l : List α} {a : α}
    (ha : a ∈ l) (hp : p a = true) : ∃ b, l.find? p = some b := by
  induction l with
  | nil => simp at ha
  | cons x t ih =>
    by_cases hpx : p x = true
    · exact ⟨x, List.find?_cons_of_pos _ hpx⟩
    · rw [List.find?_cons_of_neg _ hpx]
      rcases List.mem_cons.mp ha with rfl | ha'
      · exact absurd hp hpx
      · exact ih ha'

/-- The backend `s₂` extends `s` by role records and role grants only:
everything else is untouched. -/
structure RoleExtends (s s₂ : Backend) : Prop where
  users : s₂.users = s.users
  projects : s₂.projects = s.projects
  memberships : s₂.memberships = s.memberships
  roles : ∃ ext, s₂.roles = s.roles ++ ext
  grants : ∃ ext, s₂.grants = s.grants ++ ext

theorem roleExtends_refl (s : Backend) : RoleExtends s s :=
  ⟨rfl, rfl, rfl, ⟨[], by simp⟩, ⟨[], by simp⟩⟩

theorem RoleExtends.trans {s₁ s₂ s₃ : Backend}
    (h₁ : RoleExtends s₁ s₂) (h₂ : RoleExtends s₂ s₃) : RoleExtends s₁ s₃ := by
  obtain ⟨e₁, hr₁⟩ := h₁.roles
  obtain ⟨e₂, hr₂⟩ := h₂.roles
  obtain ⟨f₁, hg₁⟩ := h₁.grants
  obtain ⟨f₂, hg₂⟩ := h₂.grants
  refine ⟨h₂.users.trans h₁.users, h₂.projects.trans h₁.projects,
    h₂.memberships.trans h₁.memberships, ⟨e₁ ++ e₂, ?_⟩, ⟨f₁ ++ f₂, ?_⟩⟩
  · rw [hr₂, hr₁, List.append_assoc]
  · rw [hg₂, hg₁, List.append_assoc]

theorem roleExtends_add_grant (s : Backend) (uid tid rid : Nat) :
    RoleExtends s (add_grant s uid tid rid) := by
  rw [add_grant]
  split
  · exact roleExtends_refl s
  · exact ⟨rfl, rfl, rfl, ⟨[], by simp⟩, ⟨[⟨uid, tid, rid⟩], rfl⟩⟩

theorem roleExtends_create_role (s : Backend) (rname : String) :
    RoleExtends s (create_role s rname).2 :=
  ⟨rfl, rfl, rfl, ⟨[⟨s.nextId, rname⟩], rfl⟩, ⟨[], by simp [create_role]⟩⟩

theorem roleExtends_add_roles_loop (uid tid : Nat) (ns : List String) :
    ∀ (lst : List String) (s : Backend), RoleExtends s (add_roles_loop uid tid ns lst s) := by
  intro lst
  induction lst with
  | nil => intro s; exact roleExtends_refl s
  | cons hd rest ih =>
    intro s
    rw [add_roles_loop]
    by_cases hhd : hd ∈ ns
    · rw [if_pos hhd]; exact ih s
    · rw [if_neg hhd]
      rcases hsr : search_role s hd with _ | role
      · exact ((roleExtends_create_role s hd).trans
          (roleExtends_add_grant _ uid tid _)).trans (ih _)
      · exact (roleExtends_add_grant s uid tid role.id).trans (ih _)

theorem search_role_mono {s s₂ : Backend} (h : RoleExtends s s₂) {n : String}
    {r : Role} (hf : search_role s n = some r) : search_role s₂ n = some r := by
  obtain ⟨ext, hroles⟩ := h.roles
  rw [search_role, hroles]
  exact find_append_some _ _ hf

theorem get_role_mono {s s₂ : Backend} (h : RoleExtends s s₂) {rid : Nat}
    {r : Role} (hf : get_role s rid = some r) : get_role s₂ rid = some r := by
  obtain ⟨ext, hroles⟩ := h.roles
  rw [get_role, hroles]
  exact find_append_some _ _ hf

theorem grant_mono {s s₂ : Backend} (h : RoleExtends s s₂) {g : Grant}
    (hg : g ∈ s.grants) : g ∈ s₂.grants := by
  obtain ⟨ext, hgr⟩ := h.grants
  rw [hgr]
  exact List.mem_append_left _ hg

theorem add_grant_mem (s : Backend) (uid tid rid : Nat) :
    (⟨uid, tid, rid⟩ : Grant) ∈ (add_grant s uid tid rid).grants := by
  rw [add_grant]
  split
  · assumption
  · simp

theorem add_grant_roles (s : Backend) (uid tid rid : Nat) :
    (add_grant s uid tid rid).roles = s.roles := by
  rw [add_grant]
  split <;> rfl

theorem search_role_create (s : Backend) (rname : String)
    (h : search_role s rname = none) :
    search_role (create_role s rname).2 rname = some (create_role s rname).1 := by
  rw [search_role] at h ⊢
  show (s.roles ++ [({ id := s.nextId, name := rname } : Role)]).find?
      (fun r => r.name = rname) = _
  rw [find_append_none _ _ h]
  simp [create_role]

/-- After a pass of the role loop, every configured role name is either in
the stale `role_names` snapshot or present as a role record that
`search_role` finds and whose id is granted. -/
theorem add_roles_loop_covers (uid tid : Nat) (ns : List String) :
    ∀ (lst : List String) (s : Backend) (rname : String), rname ∈ lst →
      rname ∈ ns ∨
      ∃ r, search_role (add_roles_loop uid tid ns lst s) rname = some r ∧
        (⟨uid, tid, r.id⟩ : Grant) ∈ (add_roles_loop uid tid ns lst s).grants := by
  intro lst
  induction lst with
  | nil => intro s rname h; simp at h
  | cons hd rest ih =>
    intro s rname hmem
    rw [add_roles_loop]
    by_cases hhd : hd ∈ ns
    · rw [if_pos hhd]
      rcases List.mem_cons.mp hmem with rfl | hmem'
      · exact Or.inl hhd
      · exact ih s rname hmem'
    · rw [if_neg hhd]
      rcases hsr : search_role s hd with _ | role
      · rcases List.mem_cons.mp hmem with rfl | hmem'
        · right
          have h1 : search_role (add_grant (create_role s rname).2 uid tid
              (create_role s rname).1.id) rname = some (create_role s rname).1 := by
            rw [search_role, add_grant_roles]
            rw [search_role] at *
            exact search_role_create s rname hsr
          have h2 : (⟨uid, tid, (create_role s rname).1.id⟩ : Grant) ∈
              (add_grant (create_role s rname).2 uid tid
                (create_role s rname).1.id).grants :=
            add_grant_mem _ uid tid _
          have hext := roleExtends_add_roles_loop uid tid ns rest
            (add_grant (create_role s rname).2 uid tid (create_role s rname).1.id)
          exact ⟨(create_role s rname).1, search_role_mono hext h1, grant_mono hext h2⟩
        · exact ih _ rname hmem'
      · rcases List.mem_cons.mp hmem with rfl | hmem'
        · right
          have h1 : search_role (add_grant s uid tid role.id) rname = some role := by
            rw [search_role, add_grant_roles]
            exact hsr
          have h2 : (⟨uid, tid, role.id⟩ : Grant) ∈
              (add_grant s uid tid role.id).grants := add_grant_mem s uid tid role.id
          have hext := roleExtends_add_roles_loop uid tid ns rest
            (add_grant s uid tid role.id)
          exact ⟨role, search_role_mono hext h1, grant_mono hext h2⟩
        · exact ih _ rname hmem'

/-- A pass of the role loop is a no-op when every configured role name is
already covered (in the stale snapshot, or found and granted). -/
theorem add_roles_loop_noop (uid tid : Nat) (ns : List String) :
    ∀ (lst : List String) (s : Backend),
      (∀ rname ∈ lst, rname ∈ ns ∨
        ∃ r, search_role s rname = some r ∧ (⟨uid, tid, r.id⟩ : Grant) ∈ s.grants) →
      add_roles_loop uid tid ns lst s = s := by
  intro lst
  induction lst with
  | nil => intro s _; rfl
  | cons hd rest ih =>
    intro s h
    rw [add_roles_loop]
    by_cases hhd : hd ∈ ns
    · rw [if_pos hhd]
      exact ih s (fun rn hm => h rn (by simp [hm]))
    · rw [if_neg hhd]
      rcases h hd (by simp) with h1 | ⟨r, hsr, hg⟩
      · exact absurd h1 hhd
      · rw [hsr]
        show add_roles_loop uid tid ns rest (add_grant s uid tid r.id) = s
        have hag : add_grant s uid tid r.id = s := by
          rw [add_grant, if_pos hg]
        rw [hag]
        exact ih s (fun rn hm => h rn (by simp [hm]))

/-- Every grant present after the role loop was either already there or
references a role record that resolves in the final state. -/
theorem add_roles_loop_grants_resolvable (uid tid : Nat) (ns : List String) :
    ∀ (lst : List String) (s : Backend) (g : Grant),
      g ∈ (add_roles_loop uid tid ns lst s).grants →
      g ∈ s.grants ∨
        ∃ r, get_role (add_roles_loop uid tid ns lst s) g.role = some r := by
  intro lst
  induction lst with
  | nil => intro s g h; exact Or.inl h
  | cons hd rest ih =>
    intro s g hg
    rw [add_roles_loop] at hg ⊢
    by_cases hhd : hd ∈ ns
    · rw [if_pos hhd] at hg ⊢
      exact ih s g hg
    · rw [if_neg hhd] at hg ⊢
      rcases hsr : search_role s hd with _ | role
      · -- role autocreated with a fresh id, then granted
        rw [hsr] at hg
        replace hg : g ∈ (add_roles_loop uid tid ns rest
            (add_grant (create_role s hd).2 uid tid (create_role s hd).1.id)).grants := hg
        show g ∈ s.grants ∨ ∃ r, get_role (add_roles_loop uid tid ns rest
            (add_grant (create_role s hd).2 uid tid (create_role s hd).1.id)) g.role = some r
        rcases ih _ g hg with hin | hres
        · rw [add_grant] at hin
          split at hin
          · exact Or.inl hin
          · rcases List.mem_append.mp hin with hin | hin
            · exact Or.inl hin
            · right
              simp only [List.mem_singleton] at hin
              subst hin
              have hmemrole : (create_role s hd).1 ∈
                  (add_grant (create_role s hd).2 uid tid
                    (create_role s hd).1.id).roles := by
                rw [add_grant_roles]
                simp [create_role]
              obtain ⟨r, hr⟩ := find_isSome_of_mem
                (fun r => r.id = (create_role s hd).1.id) hmemrole (by simp)
              have hext := roleExtends_add_roles_loop uid tid ns rest
                (add_grant (create_role s hd).2 uid tid (create_role s hd).1.id)
              exact ⟨r, get_role_mono hext hr⟩
        · exact Or.inr hres
      · rw [hsr] at hg
        replace hg : g ∈ (add_roles_loop uid tid ns rest
            (add_grant s uid tid role.id)).grants := hg
        show g ∈ s.grants ∨ ∃ r, get_role (add_roles_loop uid tid ns rest
            (add_grant s uid tid role.id)) g.role = some r
        rcases ih _ g hg with hin | hres
        · rw [add_grant] at hin
          split at hin
          · exact Or.inl hin
          · rcases List.mem_append.mp hin with hin | hin
            · exact Or.inl hin
            · right
              simp only [List.mem_singleton] at hin
              subst hin
              have hmemrole : role ∈ (add_grant s uid tid role.id).roles := by
                rw [add_grant_roles]
                exact List.mem_of_find?_eq_some hsr
              obtain ⟨r, hr⟩ := find_isSome_of_mem
                (fun r => r.id = role.id) hmemrole (by simp)
              have hext := roleExtends_add_roles_loop uid tid ns rest
                (add_grant s uid tid role.id)
              exact ⟨r, get_role_mono hext hr⟩
        · exact Or.inr hres

theorem lookup_role_names_mono {s s₂ : Backend} (h : RoleExtends s s₂) :
    ∀ {ids : List Nat} {ns : List String},
      lookup_role_names s ids = some ns → lookup_role_names s₂ ids = some ns := by
  intro ids
  induction ids with
  | nil => intro ns h2; simpa [lookup_role_names] using h2
  | cons rid rest ih =>
    intro ns h2
    rw [lookup_role_names] at h2
    rcases hg : get_role s rid with _ | r <;>
      rcases hl : lookup_role_names s rest with _ | ns' <;>
        rw [hg, hl] at h2 <;> simp at h2
    rw [lookup_role_names, get_role_mono h hg, ih hl]
    simp [h2]

theorem lookup_role_names_resolvable {s : Backend} :
    ∀ {ids : List Nat} {ns : List String}, lookup_role_names s ids = some ns →
      ∀ rid ∈ ids, ∃ r, get_role s rid = some r := by
  intro ids
  induction ids with
  | nil => intro ns _ rid h; simp at h
  | cons rid0 rest ih =>
    intro ns h2 rid hrid
    rw [lookup_role_names] at h2
    rcases hg : get_role s rid0 with _ | r <;>
      rcases hl : lookup_role_names s rest with _ | ns' <;>
        rw [hg, hl] at h2 <;> simp at h2
    rcases List.mem_cons.mp hrid with rfl | hrid'
    · exact ⟨r, hg⟩
    · exact ih hl rid hrid'

theorem lookup_role_names_mem {s : Backend} :
    ∀ {ids : List Nat} {ns : List String}, lookup_role_names s ids = some ns →
      ∀ {rid : Nat} {r : Role}, rid ∈ ids → get_role s rid = some r →
        r.name ∈ ns := by
  intro ids
  induction ids with
  | nil => intro ns _ rid r h; simp at h
  | cons rid0 rest ih =>
    intro ns h2 rid r hrid hr
    rw [lookup_role_names] at h2
    rcases hg : get_role s rid0 with _ | r0 <;>
      rcases hl : lookup_role_names s rest with _ | ns' <;>
        rw [hg, hl] at h2 <;> simp at h2
    subst h2
    rcases List.mem_cons.mp hrid with rfl | hrid'
    · have h3 : r = r0 := (Option.some.inj (hg.symm.trans hr)).symm
      subst h3
      simp
    · simp [ih hl hrid' hr]

theorem lookup_role_names_names {s : Backend} :
    ∀ {ids : List Nat} {ns : List String}, lookup_role_names s ids = some ns →
      ∀ n ∈ ns, ∃ rid ∈ ids, ∃ r, get_role s rid = some r ∧ r.name = n := by
  intro ids
  induction ids with
  | nil =>
    intro ns h2 n hn
    rw [lookup_role_names] at h2
    simp at h2
    subst h2
    simp at hn
  | cons rid0 rest ih =>
    intro ns h2 n hn
    rw [lookup_role_names] at h2
    rcases hg : get_role s rid0 with _ | r0 <;>
      rcases hl : lookup_role_names s rest with _ | ns' <;>
        rw [hg, hl] at h2 <;> simp at h2
    subst h2
    rcases List.mem_cons.mp hn with rfl | hn'
    · exact ⟨rid0, by simp, r0, hg, rfl⟩
    · obtain ⟨rid, hridmem, r, hr, hname⟩ := ih hl n hn'
      exact ⟨rid, by simp [hridmem], r, hr, hname⟩

theorem lookup_role_names_total {s : Backend} :
    ∀ {ids : List Nat}, (∀ rid ∈ ids, ∃ r, get_role s rid = some r) →
      ∃ ns, lookup_role_names s ids = some ns := by
  intro ids
  induction ids with
  | nil => intro _; exact ⟨[], rfl⟩
  | cons rid0 rest ih =>
    intro h
    obtain ⟨r, hr⟩ := h rid0 (by simp)
    obtain ⟨ns, hns⟩ := ih (fun rid hrid => h rid (by simp [hrid]))
    exact ⟨r.name :: ns, by rw [lookup_role_names, hr, hns]⟩

/-- Running `_update_user_roles` a second time from the state a
successful run produced changes nothing. -/
theorem update_user_roles_idem (ur : List String) (s : Backend) (uid tid : Nat)
    (s₁ : Backend) (h : update_user_roles ur s uid tid = .ok s₁) :
    update_user_roles ur s₁ uid tid = .ok s₁ := by
  rw [update_user_roles] at h
  rcases hln : lookup_role_names s (get_roles_for_user_and_project s uid tid)
      with _ | ns <;> rw [hln] at h
  · exact absurd h (by simp)
  · have hs1 : add_roles_loop uid tid ns ur s = s₁ := by simpa using h
    have hext : RoleExtends s s₁ := hs1 ▸ roleExtends_add_roles_loop uid tid ns ur s
    obtain ⟨extg, hg⟩ := hext.grants
    have hids : get_roles_for_user_and_project s₁ uid tid =
        get_roles_for_user_and_project s uid tid ++
          ((extg.filter (fun g => g.user = uid && g.tenant = tid)).map
            (fun g => g.role)) := by
      rw [get_roles_for_user_and_project, get_roles_for_user_and_project, hg,
        List.filter_append, List.map_append]
    have hres : ∀ rid ∈ get_roles_for_user_and_project s₁ uid tid,
        ∃ r, get_role s₁ rid = some r := by
      intro rid hrid
      rw [get_roles_for_user_and_project] at hrid
      obtain ⟨g2, hgmem, hgrole⟩ := List.mem_map.mp hrid
      have hgf := List.mem_filter.mp hgmem
      rcases add_roles_loop_grants_resolvable uid tid ns ur s g2
          (hs1 ▸ hgf.1) with hins | hresolved
      · have hin0 : g2.role ∈ get_roles_for_user_and_project s uid tid := by
          rw [get_roles_for_user_and_project]
          exact List.mem_map.mpr ⟨g2, List.mem_filter.mpr ⟨hins, hgf.2⟩, rfl⟩
        obtain ⟨r, hr⟩ := lookup_role_names_resolvable hln g2.role hin0
        exact hgrole ▸ ⟨r, get_role_mono hext hr⟩
      · exact hgrole ▸ (hs1 ▸ hresolved)
    obtain ⟨ns₂, hln₂⟩ := lookup_role_names_total hres
    rw [update_user_roles, hln₂]
    have hnoop : add_roles_loop uid tid ns₂ ur s₁ = s₁ := by
      apply add_roles_loop_noop
      intro rname hrn
      rcases add_roles_loop_covers uid tid ns ur s rname hrn with hin | ⟨r, hsr, hgr⟩
      · left
        obtain ⟨rid, hridmem, r, hr, hname⟩ := lookup_role_names_names hln rname hin
        have hrid1 : rid ∈ get_roles_for_user_and_project s₁ uid tid := by
          rw [hids]
          exact List.mem_append_left _ hridmem
        have hr1 : get_role s₁ rid = some r := get_role_mono hext hr
        have := lookup_role_names_mem hln₂ hrid1 hr1
        rwa [hname] at this
      · right
        exact ⟨r, hs1 ▸ hsr, hs1 ▸ hgr⟩
    show Except.ok (add_roles_loop uid tid ns₂ ur s₁) = Except.ok s₁
    rw [hnoop]

theorem add_user_to_project_frame (s : Backend) (tid uid : Nat) :
    (add_user_to_project s tid uid).users = s.users ∧
    (add_user_to_project s tid uid).projects = s.projects ∧
    (add_user_to_project s tid uid).roles = s.roles ∧
    (add_user_to_project s tid uid).grants = s.grants := by
  rw [add_user_to_project]
  split <;> exact ⟨rfl, rfl, rfl, rfl⟩

theorem add_user_to_project_mem (s : Backend) (tid uid : Nat) :
    (tid, uid) ∈ (add_user_to_project s tid uid).memberships := by
  rw [add_user_to_project]
  split
  · assumption
  · simp

theorem update_user_roles_ok_frame {ur : List String} {s : Backend} {uid tid : Nat}
    {s₂ : Backend} (h : update_user_roles ur s uid tid = .ok s₂) :
    s₂.users = s.users ∧ s₂.projects = s.projects ∧ s₂.memberships = s.memberships := by
  rw [update_user_roles] at h
  rcases hln : lookup_role_names s (get_roles_for_user_and_project s uid tid)
      with _ | ns <;> rw [hln] at h
  · exact absurd h (by simp)
  · have hs2 : add_roles_loop uid tid ns ur s = s₂ := by simpa using h
    have hext : RoleExtends s s₂ := hs2 ▸ roleExtends_add_roles_loop uid tid ns ur s
    exact ⟨hext.users, hext.projects, hext.memberships⟩

theorem get_project_from_voms_ok_mem {table : PolicyTable} {projects : List Project}
    {voname : String} {fqans : List String} {p : Project}
    (h : get_project_from_voms table projects voname fqans = .ok p) :
    p ∈ projects := by
  rw [get_project_from_voms] at h
  split at h
  · exact absurd h (by simp)
  · split at h <;>
      (simp only [] at h
       split at h
       · rename_i q hq
         obtain rfl : q = p := by simpa using h
         exact List.mem_of_find?_eq_some hq
       · exact absurd h (by simp))

theorem mem_list_projects_iff {s : Backend} {uid : Nat} {p : Project} :
    p ∈ list_projects_for_user s uid ↔
      p ∈ s.projects ∧ (p.id, uid) ∈ s.memberships := by
  simp [list_projects_for_user, List.mem_filter]

theorem get_user_rest_frame (cfg : Config) (table : PolicyTable) (info : VomsInfo)
    (req_tenant : Option String) (u : User) (s : Backend) :
    (get_user_rest cfg table info req_tenant u s).2.users = s.users ∧
    (get_user_rest cfg table info req_tenant u s).2.projects = s.projects := by
  rcases hres : get_project_from_voms table s.projects info.voname info.fqans with e | tenant
  · simp [get_user_rest, hres]
  · by_cases hmis : tenant_mismatch req_tenant tenant.name = true
    · simp [get_user_rest, hres, hmis]
    · by_cases hauto : cfg.autocreate_users = true
      · by_cases hmem : tenant ∈ list_projects_for_user s u.id
        · by_cases hroles : cfg.add_roles = true
          · rcases hupd : update_user_roles cfg.user_roles s u.id tenant.id with e2 | s2
            · simp [get_user_rest, hres, hmis, hauto, hmem, hroles, hupd]
            · have hf := update_user_roles_ok_frame hupd
              simp [get_user_rest, hres, hmis, hauto, hmem, hroles, hupd, hf.1, hf.2.1]
          · simp [get_user_rest, hres, hmis, hauto, hmem, hroles]
        · have haf := add_user_to_project_frame s tenant.id u.id
          by_cases hroles : cfg.add_roles = true
          · rcases hupd : update_user_roles cfg.user_roles
                (add_user_to_project s tenant.id u.id) u.id tenant.id with e2 | s2
            · simp [get_user_rest, hres, hmis, hauto, hmem, hroles, hupd, haf.1, haf.2.1]
            · have hf := update_user_roles_ok_frame hupd
              simp [get_user_rest, hres, hmis, hauto, hmem, hroles, hupd,
                hf.1, hf.2.1, haf.1, haf.2.1]
          · simp [get_user_rest, hres, hmis, hauto, hmem, hroles, haf.1, haf.2.1]
      · simp [get_user_rest, hres, hmis, hauto]

/-- A second run of the post-user stage from the state the first run
left behind changes nothing. -/
theorem get_user_rest_idem (cfg : Config) (table : PolicyTable) (info : VomsInfo)
    (req_tenant : Option String) (u : User) (s : Backend) :
    (get_user_rest cfg table info req_tenant u
      (get_user_rest cfg table info req_tenant u s).2).2 =
      (get_user_rest cfg table info req_tenant u s).2 := by
  rcases hres : get_project_from_voms table s.projects info.voname info.fqans with e | tenant
  · simp [get_user_rest, hres]
  · by_cases hmis : tenant_mismatch req_tenant tenant.name = true
    · simp [get_user_rest, hres, hmis]
    · by_cases hauto : cfg.autocreate_users = true
      case neg => simp [get_user_rest, hres, hmis, hauto]
      case pos =>
        have htm : tenant ∈ s.projects := get_project_from_voms_ok_mem hres
        by_cases hmem : tenant ∈ list_projects_for_user s u.id
        · by_cases hroles : cfg.add_roles = true
          · rcases hupd : update_user_roles cfg.user_roles s u.id tenant.id with e2 | s2
            · simp [get_user_rest, hres, hmis, hauto, hmem, hroles, hupd]
            · have hf := update_user_roles_ok_frame hupd
              have hres2 : get_project_from_voms table s2.projects
                  info.voname info.fqans = .ok tenant := by
                rw [hf.2.1]
                exact hres
              have hmem2 : tenant ∈ list_projects_for_user s2 u.id := by
                rw [mem_list_projects_iff] at hmem ⊢
                exact ⟨by rw [hf.2.1]; exact hmem.1, by rw [hf.2.2]; exact hmem.2⟩
              have hupd2 := update_user_roles_idem _ _ _ _ _ hupd
              simp [get_user_rest, hres, hres2, hmis, hauto, hmem, hmem2,
                hroles, hupd, hupd2]
          · simp [get_user_rest, hres, hmis, hauto, hmem, hroles]
        · have haf := add_user_to_project_frame s tenant.id u.id
          have hres1 : get_project_from_voms table
              (add_user_to_project s tenant.id u.id).projects
              info.voname info.fqans = .ok tenant := by
            rw [haf.2.1]
            exact hres
          have hmem1 : tenant ∈ list_projects_for_user
              (add_user_to_project s tenant.id u.id) u.id := by
            rw [mem_list_projects_iff]
            exact ⟨by rw [haf.2.1]; exact htm, add_user_to_project_mem s tenant.id u.id⟩
          by_cases hroles : cfg.add_roles = true
          · rcases hupd : update_user_roles cfg.user_roles
                (add_user_to_project s tenant.id u.id) u.id tenant.id with e2 | s2
            · simp [get_user_rest, hres, hres1, hmis, hauto, hmem, hmem1, hroles, hupd]
            · have hf := update_user_roles_ok_frame hupd
              have hres2 : get_project_from_voms table s2.projects
                  info.voname info.fqans = .ok tenant := by
                rw [hf.2.1]
                exact hres1
              have hmem2 : tenant ∈ list_projects_for_user s2 u.id := by
                rw [mem_list_projects_iff] at hmem1 ⊢
                exact ⟨by rw [hf.2.1]; exact hmem1.1, by rw [hf.2.2]; exact hmem1.2⟩
              have hupd2 := update_user_roles_idem _ _ _ _ _ hupd
              simp [get_user_rest, hres, hres1, hres2, hmis, hauto, hmem, hmem1,
                hmem2, hroles, hupd, hupd2]
          · simp [get_user_rest, hres, hres1, hmis, hauto, hmem, hmem1, hroles]

/-- C8: provisioning is idempotent.  For every configuration, policy
table, VOMS attribute set, requested tenant and backend state, running
`_get_user` a second time with identical inputs from the state the first
run produced leaves the backend exactly as the first run left it: no
duplicate user records, tenant memberships, roles or role grants. -/
theorem get_user_idempotent (cfg : Config) (table : PolicyTable) (info : VomsInfo)
    (req_tenant : Option String) (s : Backend) :
    (get_user cfg table info req_tenant
      (get_user cfg table info req_tenant s).2).2 =
      (get_user cfg table info req_tenant s).2 := by
  rcases hfind : get_user_by_name s info.user with _ | u
  · by_cases hauto : cfg.autocreate_users = true
    · have h1 : get_user cfg table info req_tenant s =
          get_user_rest cfg table info req_tenant (create_user s info.user).1
            (create_user s info.user).2 := by
        simp [get_user, hfind, hauto]
      have h0 : (s.users.find? fun u2 => u2.name = info.user) = none := by
        simp only [get_user_by_name] at hfind
        exact hfind
      have hfind2 : get_user_by_name (get_user cfg table info req_tenant s).2 info.user
          = some (create_user s info.user).1 := by
        rw [h1]
        simp only [get_user_by_name]
        rw [(get_user_rest_frame cfg table info req_tenant (create_user s info.user).1
          (create_user s info.user).2).1]
        show ((s.users ++ [(create_user s info.user).1]).find?
          fun u2 => u2.name = info.user) = some (create_user s info.user).1
        rw [find_append_none _ _ h0]
        rw [List.find?_cons_of_pos _ (by simp [create_user])]
      have h2 : get_user cfg table info req_tenant
          (get_user cfg table info req_tenant s).2 =
          get_user_rest cfg table info req_tenant (create_user s info.user).1
            (get_user cfg table info req_tenant s).2 := by
        generalize hS : (get_user cfg table info req_tenant s).2 = S at hfind2 ⊢
        simp [get_user, hfind2]
      rw [h2, h1]
      exact get_user_rest_idem cfg table info req_tenant (create_user s info.user).1
        (create_user s info.user).2
    · simp [get_user, hfind, hauto]
  · have h1 : get_user cfg table info req_tenant s =
        get_user_rest cfg table info req_tenant u s := by
      simp [get_user, hfind]
    have hfind2 : get_user_by_name (get_user cfg table info req_tenant s).2 info.user
        = some u := by
      rw [h1]
      simp only [get_user_by_name]
      rw [(get_user_rest_frame cfg table info req_tenant u s).1]
      simp only [get_user_by_name] at hfind
      exact hfind
    have h2 : get_user cfg table info req_tenant
        (get_user cfg table info req_tenant s).2 =
        get_user_rest cfg table info req_tenant u
          (get_user cfg table info req_tenant s).2 := by
      generalize hS : (get_user cfg table info req_tenant s).2 = S at hfind2 ⊢
      simp [get_user, hfind2]
    rw [h2, h1]
    exact get_user_rest_idem cfg table info req_tenant u s

/-! ## Request orchestrator (core.py lines 203-213 and 315-347) -/

/-- A JSON value as inspected by `is_applicable`: the Python literal
`True`, or any other value (which trips the validation error). -/
inductive JsonVal where
  | jTrue
  | jOther
deriving DecidableEq

/-- The `auth` object of the request body (`params["auth"]`). -/
structure Auth where
  voms : Option JsonVal
  tenantName : Option String
deriving DecidableEq

/-- The request-body parameters stored under `PARAMS_ENV`. -/
structure Params where
  auth : Option Auth
deriving DecidableEq

/-- The WSGI request environment entries the middleware reads or writes:
`REMOTE_USER`, the parsed body under `PARAMS_ENV`, `SSL_CLIENT_S_DN`,
`SSL_CLIENT_CERT` and the collected `SSL_CLIENT_CERT_CHAIN_*` values. -/
structure Environ where
  remote_user : Option String
  params : Option Params
  ssl_dn : Option String
  ssl_cert : Option String
  ssl_chain : List String
deriving DecidableEq

/-- The `ssl_dict` assembled by `_process_request`. -/
structure SslDict where
  dn : Option String
  cert : Option String
  chain : List String
deriving DecidableEq

/-- Assembling `ssl_dict` from the environment (core.py lines 323-330). -/
def ssl_dict_of (env : Environ) : SslDict :=
  { dn := env.ssl_dn, cert := env.ssl_cert, chain := env.ssl_chain }

/-- `VomsAuthNMiddleware.is_applicable` (core.py lines 203-213): `voms`
absent from `auth` means not applicable; present and `True` means
applicable; present with any other value raises `ValidationError`.
Missing `PARAMS_ENV` or `auth` default to empty dicts. -/
def is_applicable (env : Environ) : Except PyExc Bool :=
  let params := env.params.getD { auth := none }
  let auth := params.auth.getD { voms := none, tenantName := none }
  match auth.voms with
  | some .jTrue => .ok true
  | some .jOther => .error .validationError
  | none => .ok false

/-- The non-raising outcomes of `_process_request`: delegate to the
wrapped application (`return self.application`), or fall through after
authenticating (Python `None`). -/
inductive MwOutcome where
  | app
  | done
deriving DecidableEq

/-- `VomsAuthNMiddleware._process_request` (core.py lines 315-340), with
the external `_get_voms_info` certificate-validation step abstracted as
the `validate` collaborator.  Returns the outcome or raised exception,
the request environment left behind, and the backend state. -/
def process_request_inner (cfg : Config) (table : PolicyTable)
    (validate : SslDict → Except PyExc VomsInfo)
    (env : Environ) (s : Backend) :
    Except PyExc MwOutcome × Environ × Backend :=
  match env.remote_user with
  | some _ => (.ok .app, env, s)
  | none =>
    match is_applicable env with
    | .error e => (.error e, env, s)
    | .ok false => (.ok .app, env, s)
    | .ok true =>
      match validate (ssl_dict_of env) with
      | .error e => (.error e, env, s)
      | .ok voms_info =>
        match env.params with
        | none => (.error .typeErr, env, s)
        | some ps =>
          match ps.auth with
          | none => (.error .keyErr, env, s)
          | some auth =>
            match get_user cfg table voms_info auth.tenantName s with
            | (.error e, s1) => (.error e, env, s1)
            | (.ok (user_dn, _tname), s1) =>
              (.ok .done, { env with remote_user := some user_dn }, s1)

/-- The result of the top-level `process_request`: the normal outcome, or
a response rendered from a caught exception by `wsgi.render_exception`. -/
inductive WsgiResult where
  | normal (o : MwOutcome)
  | rendered (e : PyExc)
deriving DecidableEq

/-- `VomsAuthNMiddleware.process_request` (core.py lines 342-347): run
`_process_request` inside `try`, and convert every raised exception into
a rendered response via `wsgi.render_exception`. -/
def process_request (cfg : Config) (table : PolicyTable)
    (validate : SslDict → Except PyExc VomsInfo)
    (env : Environ) (s : Backend) : WsgiResult × Environ × Backend :=
  match process_request_inner cfg table validate env s with
  | (.ok o, env1, s1) => (.normal o, env1, s1)
  | (.error e, env1, s1) => (.rendered e, env1, s1)

/-- Every `ok` payload of the post-user stage carries the VOMS subject DN
as its first component. -/
theorem get_user_rest_ok_dn (cfg : Config) (table : PolicyTable) (info : VomsInfo)
    (rq : Option String) (u : User) (s : Backend) (dn tn : String) (s1 : Backend)
    (h : get_user_rest cfg table info rq u s = (.ok (dn, tn), s1)) :
    dn = info.user := by
  rw [get_user_rest] at h
  split at h
  · exact absurd h (by simp)
  · split at h
    · exact absurd h (by simp)
    · split at h
      · simp only [] at h
        split at h
        · split at h
          · exact absurd h (by simp)
          · rw [Prod.mk.injEq] at h
            have h2 := h.1
            simp at h2
            exact h2.1.symm
        · rw [Prod.mk.injEq] at h
          have h2 := h.1
          simp at h2
          exact h2.1.symm
      · rw [Prod.mk.injEq] at h
        have h2 := h.1
        simp at h2
        exact h2.1.symm

/-- Every `ok` payload of `_get_user` carries the VOMS subject DN. -/
theorem get_user_ok_dn (cfg : Config) (table : PolicyTable) (info : VomsInfo)
    (rq : Option String) (s : Backend) (dn tn : String) (s1 : Backend)
    (h : get_user cfg table info rq s = (.ok (dn, tn), s1)) : dn = info.user := by
  rw [get_user] at h
  split at h
  · exact get_user_rest_ok_dn _ _ _ _ _ _ _ _ _ h
  · split at h
    · exact get_user_rest_ok_dn _ _ _ _ _ _ _ _ _ h
    · exact absurd h (by simp)

theorem process_request_inner_env_parts (cfg : Config) (table : PolicyTable)
    (validate : SslDict → Except PyExc VomsInfo) (env : Environ) (s : Backend) :
    (process_request_inner cfg table validate env s).2.1.params = env.params ∧
    (process_request_inner cfg table validate env s).2.1.ssl_dn = env.ssl_dn ∧
    (process_request_inner cfg table validate env s).2.1.ssl_cert = env.ssl_cert ∧
    (process_request_inner cfg table validate env s).2.1.ssl_chain = env.ssl_chain := by
  rcases hru : env.remote_user with _ | ru
  · rcases happ : is_applicable env with e | b
    · simp [process_request_inner, hru, happ]
    · rcases b with _ | _
      · simp [process_request_inner, hru, happ]
      · rcases hval : validate (ssl_dict_of env) with e | info
        · simp [process_request_inner, hru, happ, hval]
        · rcases hps : env.params with _ | ps
          · simp [process_request_inner, hru, happ, hval, hps]
          · rcases hau : ps.auth with _ | auth
            · simp [process_request_inner, hru, happ, hval, hps, hau]
            · rcases hgu : get_user cfg table info auth.tenantName s with ⟨r, s1⟩
              rcases r with e | pair
              · simp [process_request_inner, hru, happ, hval, hps, hau, hgu]
              · rcases pair with ⟨dn, tn⟩
                simp [process_request_inner, hru, happ, hval, hps, hau, hgu]
  · simp [process_request_inner, hru]

theorem process_request_inner_authenticated (cfg : Config) (table : PolicyTable)
    (validate : SslDict → Except PyExc VomsInfo) (env : Environ) (s : Backend)
    (h : env.remote_user.isSome = true) :
    (process_request_inner cfg table validate env s).2.1 = env := by
  rcases hru : env.remote_user with _ | ru
  · rw [hru] at h
    simp at h
  · simp [process_request_inner, hru]

theorem process_request_inner_not_applicable (cfg : Config) (table : PolicyTable)
    (validate : SslDict → Except PyExc VomsInfo) (env : Environ) (s : Backend)
    (h : is_applicable env = .ok false) :
    (process_request_inner cfg table validate env s).2.1 = env := by
  rcases hru : env.remote_user with _ | ru
  · simp [process_request_inner, hru, h]
  · simp [process_request_inner, hru]

theorem process_request_inner_success (cfg : Config) (table : PolicyTable)
    (validate : SslDict → Except PyExc VomsInfo) (env : Environ) (s : Backend)
    (info : VomsInfo) (hval : validate (ssl_dict_of env) = .ok info)
    (hdone : (process_request_inner cfg table validate env s).1 = .ok .done) :
    (process_request_inner cfg table validate env s).2.1 =
      { env with remote_user := some info.user } := by
  rcases hru : env.remote_user with _ | ru
  case some => simp [process_request_inner, hru] at hdone
  case none =>
    rcases happ : is_applicable env with e | b
    · simp [process_request_inner, hru, happ] at hdone
    · rcases b with _ | _
      · simp [process_request_inner, hru, happ] at hdone
      · rcases hvv : validate (ssl_dict_of env) with e | info2
        · rw [hvv] at hval
          exact absurd hval (by simp)
        · have hinfo : info2 = info := by
            rw [hvv] at hval
            simpa using hval
          subst hinfo
          rcases hps : env.params with _ | ps
          · simp [process_request_inner, hru, happ, hvv, hps] at hdone
          · rcases hau : ps.auth with _ | auth
            · simp [process_request_inner, hru, happ, hvv, hps, hau] at hdone
            · rcases hgu : get_user cfg table info2 auth.tenantName s with ⟨r, s1⟩
              rcases r with e | pair
              · simp [process_request_inner, hru, happ, hvv, hps, hau, hgu] at hdone
              · rcases pair with ⟨dn, tn⟩
                have hdn : dn = info2.user := get_user_ok_dn _ _ _ _ _ _ _ _ hgu
                simp [process_request_inner, hru, happ, hvv, hps, hau, hgu, hdn]

/-- C10: `_process_request` modifies at most the `REMOTE_USER` entry of
the request environment: the body parameters (hence the `auth.tenantName`
the client sent — the resolved tenant is never written back) and all SSL
entries are always unchanged; the already-authenticated and
not-applicable paths leave the environment untouched; and on successful
VOMS authentication the only change is setting `REMOTE_USER` to the VOMS
subject DN. -/
theorem process_request_inner_frame (cfg : Config) (table : PolicyTable)
    (validate : SslDict → Except PyExc VomsInfo) (env : Environ) (s : Backend) :
    ((process_request_inner cfg table validate env s).2.1.params = env.params ∧
     (process_request_inner cfg table validate env s).2.1.ssl_dn = env.ssl_dn ∧
     (process_request_inner cfg table validate env s).2.1.ssl_cert = env.ssl_cert ∧
     (process_request_inner cfg table validate env s).2.1.ssl_chain = env.ssl_chain) ∧
    (env.remote_user.isSome = true →
      (process_request_inner cfg table validate env s).2.1 = env) ∧
    (is_applicable env = .ok false →
      (process_request_inner cfg table validate env s).2.1 = env) ∧
    (∀ info : VomsInfo, validate (ssl_dict_of env) = .ok info →
      (process_request_inner cfg table validate env s).1 = .ok .done →
      (process_request_inner cfg table validate env s).2.1 =
        { env with remote_user := some info.user }) :=
  ⟨process_request_inner_env_parts cfg table validate env s,
   fun h => process_request_inner_authenticated cfg table validate env s h,
   fun h => process_request_inner_not_applicable cfg table validate env s h,
   fun info hval hdone =>
     process_request_inner_success cfg table validate env s info hval hdone⟩

/-- Witness for C10 on a concrete already-authenticated request: the
environment is returned unchanged. -/
theorem process_request_inner_frame_witness :
    (process_request_inner ⟨false, false, []⟩ []
        (fun _ => .error (.vomsError 1))
        ⟨some "u", none, none, none, []⟩ ⟨[], [], [], [], [], 0⟩).2.1 =
      ⟨some "u", none, none, none, []⟩ :=
  (process_request_inner_frame ⟨false, false, []⟩ []
      (fun _ => .error (.vomsError 1))
      ⟨some "u", none, none, none, []⟩ ⟨[], [], [], [], [], 0⟩).2.1 rfl

/-- C9 counterexample: on a request that opts into VOMS with an invalid
value (`auth["voms"]` present but not `True`), `_process_request` raises
`ValidationError` and the top-level `process_request` catches it and
returns a rendered response (`wsgi.render_exception(e)`) — the typed
error is not propagated to the caller. -/
theorem process_request_renders_failure :
    process_request ⟨false, false, []⟩ []
        (fun _ => .error (.vomsError 1))
        ⟨none, some ⟨some ⟨some .jOther, none⟩⟩, none, none, []⟩
        ⟨[], [], [], [], [], 0⟩ =
      (.rendered .validationError,
        ⟨none, some ⟨some ⟨some .jOther, none⟩⟩, none, none, []⟩,
        ⟨[], [], [], [], [], 0⟩) := by
  rfl

/-- C9 amended: `_process_request` surfaces every failure as a typed
error, but the top-level `process_request` catches it and converts it
into a rendered protocol-level response rather than propagating it: for
every failing request, `process_request` returns `rendered e` with the
environment and backend `_process_request` left behind. -/
theorem process_request_renders_all_errors (cfg : Config) (table : PolicyTable)
    (validate : SslDict → Except PyExc VomsInfo) (env : Environ) (s : Backend)
    (e : PyExc) (h : (process_request_inner cfg table validate env s).1 = .error e) :
    (process_request cfg table validate env s).1 = .rendered e ∧
    (process_request cfg table validate env s).2 =
      (process_request_inner cfg table validate env s).2 := by
  rcases hE : process_request_inner cfg table validate env s with ⟨r, env1, s1⟩
  rw [hE] at h
  rcases r with e2 | o
  · have h2 : e2 = e := by simpa using h
    subst h2
    simp [process_request, hE]
  · exact absurd h (by simp)

/-- Witness for the amended C9 at the concrete invalid-`voms` request. -/
theorem process_request_renders_all_errors_witness :
    (process_request ⟨false, false, []⟩ []
        (fun _ => .error (.vomsError 1))
        ⟨none, some ⟨some ⟨some .jOther, none⟩⟩, none, none, []⟩
        ⟨[], [], [], [], [], 0⟩).1 = .rendered .validationError :=
  (process_request_renders_all_errors ⟨false, false, []⟩ []
      (fun _ => .error (.vomsError 1))
      ⟨none, some ⟨some ⟨some .jOther, none⟩⟩, none, none, []⟩
      ⟨[], [], [], [], [], 0⟩ .validationError rfl).1

end KeystoneVoms
